import Mathlib

/-!
Verification of the disgomux command multiplexer.

A shallow embedding of `disgomux.go`: a message-routing and command-dispatch
core for a Discord bot.  Go strings are modelled as `List Char`; the Go maps
`Commands` and `SimpleCommands` are association lists with overwrite-on-insert
semantics; the external collaborators (the Discord session's `GuildMember`
lookup and the `fuzzy.Find` library call) are parameters of the dispatch
function; the observable behaviour of one call to `Mux.Handle` is a trace of
events (messages sent, middleware invocations, the `Permissions()` read, the
guild-member lookup, and the `go handler.Handle(ctx)` spawn).  A Go runtime
panic (the string slice `args[0][1:]` on an empty string) is modelled by the
dispatch function returning `none`.
-/

namespace Disgomux

/-- Go strings, modelled as lists of characters. -/
abbrev Str := List Char

/-- Literal helper: a Lean string literal as a `Str`. -/
def lit (s : String) : Str := s.toList

/-- The helper `arrayContains` from the source: linear scan for an exact
string match. -/
def arrayContains (array : List Str) (value : Str) : Bool :=
  match array with
  | [] => false
  | e :: rest => if e = value then true else arrayContains rest value

/-- Go `strings.HasPrefix(s, pre)`: `pre` starts `s`. -/
def stringsHasPrefix : Str → Str → Bool
  | _, [] => true
  | [], _ :: _ => false
  | c :: cs, p :: ps => if c = p then stringsHasPrefix cs ps else false

/-- Go `strings.Split(s, " ")`: split on every single space; never returns an
empty list (splitting the empty string gives one empty field). -/
def stringsSplitSpace : Str → List Str
  | [] => [[]]
  | c :: rest =>
    if c = ' ' then [] :: stringsSplitSpace rest
    else
      match stringsSplitSpace rest with
      | [] => [[c]]
      | t :: ts => (c :: t) :: ts

/-- Go `strings.ToLower`, restricted to the ASCII case mapping. -/
def stringsToLower (s : Str) : Str := s.map Char.toLower

/-- Go string slicing `s[1:]`: drops the first byte, but panics (modelled as
`none`) when the string is empty, since `1 > len(s)` is out of bounds. -/
def sliceFrom1 : Str → Option Str
  | [] => none
  | _ :: rest => some rest

/-- Association-list lookup, first match wins (Go map read). -/
def mapLookup {α : Type} : List (Str × α) → Str → Option α
  | [], _ => none
  | (k', v) :: rest, k => if k' = k then some v else mapLookup rest k

/-- Association-list insert, overwriting an existing key (Go map write). -/
def mapInsert {α : Type} : List (Str × α) → Str → α → List (Str × α)
  | [], k, v => [(k, v)]
  | (k', v') :: rest, k, v =>
    if k' = k then (k, v) :: rest else (k', v') :: mapInsert rest k v

/-- The `CommandPermissions` record: whitelists of user, role and channel
IDs. -/
structure CommandPermissions where
  UserIDs : List Str
  RoleIDs : List Str
  ChanIDs : List Str
deriving DecidableEq

/-- The `CommandSettings` record: the command's name and help text. -/
structure CommandSettings where
  Command : Str
  HelpText : Str
deriving DecidableEq

/-- A rich command (the Go `Command` interface): its user-supplied handler
code is opaque and identified by `hid`; `Settings()` and `Permissions()` are
the two data accessors the dispatcher reads. -/
structure Command where
  hid : Nat
  settings : CommandSettings
  perms : CommandPermissions
deriving DecidableEq

/-- A `SimpleCommand`: a logic-less command with a static reply. -/
structure SimpleCommand where
  Command : Str
  Content : Str
  HelpText : Str
deriving DecidableEq

/-- The `ErrorTexts` record: the two user-facing error strings. -/
structure ErrorTexts where
  CommandNotFound : Str
  NoPermissions : Str
deriving DecidableEq

/-- The `Options` record: the four configurable message filters. -/
structure Options where
  IgnoreBots : Bool
  IgnoreDMs : Bool
  IgnoreEmpty : Bool
  IgnoreNonDefault : Bool
deriving DecidableEq

/-- The author of a message (`discordgo.User`): ID and bot flag. -/
structure User where
  ID : Str
  Bot : Bool
deriving DecidableEq

/-- An inbound message (`discordgo.MessageCreate`), the fields `Handle`
reads. -/
structure Message where
  Content : Str
  Author : User
  MsgType : Nat
  GuildID : Str
  ChannelID : Str
deriving DecidableEq

/-- The constant `discordgo.MessageTypeDefault`. -/
def MessageTypeDefault : Nat := 0

/-- A guild member as returned by `session.GuildMember`: the member's user ID
and role IDs. -/
structure Member where
  UserID : Str
  Roles : List Str
deriving DecidableEq

/-- The `Context` record passed per dispatch to middleware and handlers. -/
structure Context where
  Prefix : Str
  Command : Str
  Arguments : List Str
  Message : Message
deriving DecidableEq

/-- The observable events of one `Mux.Handle` call:
`send` = `session.ChannelMessageSend`; `mw` = one middleware invocation;
`permCheck` = the `handler.Permissions()` read; `roleLookup` =
`session.GuildMember`; `spawn` = `go handler.Handle(ctx)`. -/
inductive Event where
  | send (chanID text : Str)
  | mw (mid : Nat)
  | permCheck (hid : Nat)
  | roleLookup (guildID userID : Str)
  | spawn (hid : Nat) (ctx : Context)
deriving DecidableEq

/-- The `Mux` multiplexer state. -/
structure Mux where
  Prefix : Str
  Commands : List (Str × Command)
  SimpleCommands : List (Str × SimpleCommand)
  Middleware : List Nat
  options : Options
  fuzzyMatch : Bool
  commandNames : List Str
  errorTexts : ErrorTexts
deriving DecidableEq

/-- The constructor `New`: fails when `len(prefix) > 1`, otherwise returns a fresh
mux with default error texts and all filters enabled.  The Go error value is
abstracted to `Unit`. -/
def New (pfx : Str) : Except Unit Mux :=
  if pfx.length > 1 then Except.error ()
  else Except.ok
    { Prefix := pfx
      Commands := []
      SimpleCommands := []
      Middleware := []
      options := { IgnoreBots := true, IgnoreDMs := true,
                   IgnoreEmpty := true, IgnoreNonDefault := true }
      fuzzyMatch := false
      commandNames := []
      errorTexts := { CommandNotFound := lit "Command not found.",
                      NoPermissions :=
                        lit "You do not have permission to use that command." } }

/-- Method `Mux.Register`: insert each command with a non-empty name under its
settings name, overwriting. -/
def Mux.Register (m : Mux) (commands : List Command) : Mux :=
  commands.foldl
    (fun acc c =>
      if (c.settings.Command).length ≠ 0 then
        { acc with Commands := mapInsert acc.Commands c.settings.Command c }
      else acc)
    m

/-- Method `Mux.RegisterSimple`: same overwrite semantics into
`SimpleCommands`. -/
def Mux.RegisterSimple (m : Mux) (simpleCommands : List SimpleCommand) : Mux :=
  simpleCommands.foldl
    (fun acc c =>
      if (c.Command).length ≠ 0 then
        { acc with SimpleCommands := mapInsert acc.SimpleCommands c.Command c }
      else acc)
    m

/-- Method `Mux.UseMiddleware`: append one middleware.  A middleware is a
user-supplied function on the context; its body is external code, so it is
modelled by an opaque identifier. -/
def Mux.UseMiddleware (m : Mux) (mwFn : Nat) : Mux :=
  { m with Middleware := m.Middleware ++ [mwFn] }

/-- Method `Mux.SetErrors`: override the error texts. -/
def Mux.SetErrors (m : Mux) (errorTexts : ErrorTexts) : Mux :=
  { m with errorTexts := errorTexts }

/-- The hard-coded reply sent when `session.GuildMember` fails. -/
def weirdIssueText : Str := lit "There was a weird issue. Maybe report it on Github?"

/-- The role loop of `Handle`: first role of the member found in the
command's `RoleIDs` whitelist grants permission. -/
def hasRoleIn (roles roleIDs : List Str) : Bool :=
  match roles with
  | [] => false
  | r :: rest => if arrayContains roleIDs r then true else hasRoleIn rest roleIDs

/-- One line of the fuzzy-suggestion list built in `Handle`. -/
def suggestionEntry (name : Str) : Str :=
  lit "- `!" ++ name ++ lit "`\n"

/-- The `strings.Builder` accumulation over all fuzzy matches. -/
def suggestionText (found : List Str) : Str :=
  found.foldl (fun acc s => acc ++ suggestionEntry s) []

/-- The `fmt.Sprintf("Command not found. Did you mean: \n%s", sb)` reply. -/
def didYouMeanText (sb : Str) : Str :=
  lit "Command not found. Did you mean: \n" ++ sb

/-- Lines 259–297 of `Handle`: the permission decision and dispatch after the
`handler.Permissions()` read.  The whole check is gated on `len(p.RoleIDs) != 0`;
inside it the member lookup runs first, then user ID, roles and channel are
tried in that order. -/
def permissionPhase (m : Mux) (gm : Str → Str → Option Member) (msg : Message)
    (handler : Command) (ctx : Context) : List Event :=
  if (handler.perms.RoleIDs).length ≠ 0 then
    Event.roleLookup msg.GuildID msg.Author.ID ::
      (match gm msg.GuildID msg.Author.ID with
       | none => [Event.send msg.ChannelID weirdIssueText]
       | some member =>
         if arrayContains handler.perms.UserIDs member.UserID then
           [Event.spawn handler.hid ctx]
         else if hasRoleIn member.Roles handler.perms.RoleIDs then
           [Event.spawn handler.hid ctx]
         else if arrayContains handler.perms.ChanIDs msg.ChannelID then
           [Event.spawn handler.hid ctx]
         else
           [Event.send msg.ChannelID m.errorTexts.NoPermissions])
  else
    [Event.spawn handler.hid ctx]

/-- The per-dispatch `Context` built at lines 244–250 of `Handle`:
`args[0]` minus its first byte, lowercased, is the command, `args[1:]` the
arguments. -/
def richCtx (m : Mux) (msg : Message) (tail1 : Str) : Context :=
  { Prefix := m.Prefix, Command := stringsToLower tail1,
    Arguments := (stringsSplitSpace msg.Content).tail, Message := msg }

/-- Lines 209–297 of `Handle`: resolution of the lowercased command token
(`tail1` is `args[0][1:]`) against the simple-command table, then the rich
table, then the fuzzy fallback, then the rich dispatch. -/
def handleResolved (m : Mux) (gm : Str → Str → Option Member)
    (fuzzyFind : Str → List Str → List Str) (msg : Message) (tail1 : Str) :
    Option (List Event) :=
  match mapLookup m.SimpleCommands (stringsToLower tail1) with
  | some simple => some [Event.send msg.ChannelID simple.Content]
  | none =>
    match mapLookup m.Commands (stringsToLower tail1) with
    | none =>
      if m.fuzzyMatch then
        if (suggestionText (fuzzyFind (stringsToLower tail1) m.commandNames)).length ≠ 0 then
          some [Event.send msg.ChannelID
            (didYouMeanText (suggestionText (fuzzyFind (stringsToLower tail1) m.commandNames)))]
        else
          some [Event.send msg.ChannelID m.errorTexts.CommandNotFound]
      else
        some [Event.send msg.ChannelID m.errorTexts.CommandNotFound]
    | some handler =>
      some (m.Middleware.map Event.mw ++
        Event.permCheck handler.hid ::
          permissionPhase m gm msg handler (richCtx m msg tail1))

/-- Method `Mux.Handle`: one inbound message.  `selfID` is the delivering
session's own user ID; `gm` is the session's `GuildMember` lookup (`none` =
error); `fuzzyFind` is the external `fuzzy.Find` call, returning the matched
strings.  The result is `none` on a Go panic (the out-of-bounds slice
`args[0][1:]`), otherwise the trace of events.  `Handle` never writes any
field of `m`, so it is a pure function of the mux. -/
def Mux.Handle (m : Mux) (selfID : Str) (gm : Str → Str → Option Member)
    (fuzzyFind : Str → List Str → List Str) (msg : Message) :
    Option (List Event) :=
  if msg.Author.ID = selfID then some [] else
  if m.options.IgnoreEmpty ∧ msg.Content.length = 0 then some [] else
  if m.options.IgnoreNonDefault ∧ msg.MsgType ≠ MessageTypeDefault then some [] else
  if m.options.IgnoreBots ∧ msg.Author.Bot then some [] else
  if m.options.IgnoreDMs ∧ msg.GuildID = [] then some [] else
  if ¬ stringsHasPrefix msg.Content m.Prefix then some [] else
  match sliceFrom1 ((stringsSplitSpace msg.Content).headD []) with
  | none => none
  | some tail1 => handleResolved m gm fuzzyFind msg tail1

/-- The permission-evaluation algorithm exactly as the specification words
it: all three whitelists empty means public (allow); otherwise allow exactly
when the actor's ID is whitelisted, or one of the actor's roles is, or the
channel is; otherwise deny.  Used only to compare the spec's algorithm with
the code's. -/
def specAllow (p : CommandPermissions) (actorID : Str) (actorRoles : List Str)
    (chanID : Str) : Bool :=
  if p.UserIDs.isEmpty && p.RoleIDs.isEmpty && p.ChanIDs.isEmpty then true
  else if arrayContains p.UserIDs actorID then true
  else if hasRoleIn actorRoles p.RoleIDs then true
  else if arrayContains p.ChanIDs chanID then true
  else false

/-- Observation: the messages sent in a trace (channel, text), in order. -/
def sendsIn (tr : List Event) : List (Str × Str) :=
  tr.filterMap fun e =>
    match e with
    | Event.send c t => some (c, t)
    | _ => none

/-- Observation: the handler spawns in a trace. -/
def spawnsIn (tr : List Event) : List (Nat × Context) :=
  tr.filterMap fun e =>
    match e with
    | Event.spawn h c => some (h, c)
    | _ => none

/-- Observation: the guild-member lookups in a trace. -/
def lookupsIn (tr : List Event) : List (Str × Str) :=
  tr.filterMap fun e =>
    match e with
    | Event.roleLookup g u => some (g, u)
    | _ => none

/-- Observation: the middleware invocations in a trace, in order. -/
def mwsIn (tr : List Event) : List Nat :=
  tr.filterMap fun e =>
    match e with
    | Event.mw i => some i
    | _ => none

/-- The six conditions under which `Handle` proceeds past its filters. -/
abbrev passesFilters (m : Mux) (selfID : Str) (msg : Message) : Prop :=
  ¬ (msg.Author.ID = selfID) ∧
  ¬ (m.options.IgnoreEmpty ∧ msg.Content.length = 0) ∧
  ¬ (m.options.IgnoreNonDefault ∧ msg.MsgType ≠ MessageTypeDefault) ∧
  ¬ (m.options.IgnoreBots ∧ msg.Author.Bot) ∧
  ¬ (m.options.IgnoreDMs ∧ msg.GuildID = []) ∧
  stringsHasPrefix msg.Content m.Prefix = true

/-- External stub: a member lookup that always fails. -/
def gmFail : Str → Str → Option Member := fun _ _ => none

/-- External stub: a fuzzy matcher that never matches. -/
def noFuzzy : Str → List Str → List Str := fun _ _ => []

/-- A freshly constructed mux with an exclamation-mark command marker, as
produced by `New("!")`. -/
def baseMux : Mux :=
  { Prefix := lit "!"
    Commands := []
    SimpleCommands := []
    Middleware := []
    options := { IgnoreBots := true, IgnoreDMs := true,
                 IgnoreEmpty := true, IgnoreNonDefault := true }
    fuzzyMatch := false
    commandNames := []
    errorTexts := { CommandNotFound := lit "Command not found.",
                    NoPermissions :=
                      lit "You do not have permission to use that command." } }

/-- A plain guild message from a human user. -/
def mkMsg (content : String) : Message :=
  { Content := lit content, Author := { ID := lit "user1", Bot := false },
    MsgType := 0, GuildID := lit "guild1", ChannelID := lit "chan1" }

/-- The mux that `New("")` returns: `baseMux` with an empty command marker. -/
def newEmptyMux : Mux := { baseMux with Prefix := [] }

/-- A rich command guarded only by a user whitelist (no role, no channel). -/
def cexUserOnlyRich : Command :=
  { hid := 7, settings := { Command := lit "secret", HelpText := [] },
    perms := { UserIDs := [lit "U"], RoleIDs := [], ChanIDs := [] } }

/-- A mux holding only `cexUserOnlyRich`. -/
def cexUserOnlyMux : Mux :=
  { baseMux with Commands := [(lit "secret", cexUserOnlyRich)] }

/-- A rich command guarded by a role whitelist. -/
def wRoleRich : Command :=
  { hid := 9, settings := { Command := lit "mod", HelpText := [] },
    perms := { UserIDs := [], RoleIDs := [lit "R"], ChanIDs := [] } }

/-- A mux holding only `wRoleRich`. -/
def wRoleMux : Mux := { baseMux with Commands := [(lit "mod", wRoleRich)] }

/-- A member lookup that finds `user1` holding role `R`. -/
def wRoleGm : Str → Str → Option Member :=
  fun _ _ => some { UserID := lit "user1", Roles := [lit "R"] }

/-- A rich command registered under a name containing an uppercase letter. -/
def upperPingRich : Command :=
  { hid := 3, settings := { Command := lit "Ping", HelpText := [] },
    perms := { UserIDs := [], RoleIDs := [], ChanIDs := [] } }

/-- A mux whose only rich command is registered as `Ping`. -/
def upperPingMux : Mux :=
  { baseMux with Commands := [(lit "Ping", upperPingRich)] }

/-- A simple command registered as `hello`. -/
def wHelloSimple : SimpleCommand :=
  { Command := lit "hello", Content := lit "hi there", HelpText := [] }

/-- A mux holding only the simple command `hello`. -/
def wHelloMux : Mux :=
  { baseMux with SimpleCommands := [(lit "hello", wHelloSimple)] }

/-- A mux whose command marker is the space character (length 1). -/
def spaceMux : Mux := { baseMux with Prefix := [' '] }

/-- A public rich command named `dup`, used to contest a name with a simple
command. -/
def dupRich : Command :=
  { hid := 4, settings := { Command := lit "dup", HelpText := [] },
    perms := { UserIDs := [], RoleIDs := [], ChanIDs := [] } }

/-- A simple command also named `dup`. -/
def dupSimple : SimpleCommand :=
  { Command := lit "dup", Content := lit "static reply", HelpText := [] }

/-- A mux with fuzzy matching enabled over the single name `ping`. -/
def fuzzyMux : Mux :=
  { baseMux with fuzzyMatch := true, commandNames := [lit "ping"] }

/-- External stub: a fuzzy matcher that always suggests `ping`. -/
def pingFuzzy : Str → List Str → List Str := fun _ _ => [lit "ping"]

/-- A mux with one middleware (id 5) and the rich command `mod`. -/
def mwMux : Mux := { wRoleMux with Middleware := [5] }

/-- Splitting on spaces never produces the empty list of fields. -/
theorem stringsSplitSpace_ne_nil (s : Str) : stringsSplitSpace s ≠ [] := by
  induction s with
  | nil => simp [stringsSplitSpace]
  | cons c rest ih =>
    unfold stringsSplitSpace
    by_cases hc : c = ' '
    · simp [hc]
    · rw [if_neg hc]
      cases hsplit : stringsSplitSpace rest with
      | nil => exact absurd hsplit ih
      | cons t ts => simp

/-- Unfolding equation of `stringsSplitSpace` at a non-space head. -/
theorem stringsSplitSpace_cons_ne (c : Char) (cs : Str) (h : c ≠ ' ') :
    stringsSplitSpace (c :: cs) =
      match stringsSplitSpace cs with
      | [] => [[c]]
      | t :: ts => (c :: t) :: ts := by
  conv_lhs => unfold stringsSplitSpace
  rw [if_neg h]

/-- A string starting with a non-space character yields a first field that
starts with that character. -/
theorem splitSpace_headD_cons (c : Char) (cs : Str) (h : c ≠ ' ') :
    (stringsSplitSpace (c :: cs)).headD [] =
      c :: (stringsSplitSpace cs).headD [] := by
  rw [stringsSplitSpace_cons_ne c cs h]
  cases hsplit : stringsSplitSpace cs with
  | nil => simp
  | cons t ts => simp

/-- A string with a one-character prefix starts with that character. -/
theorem hasPrefix_single (s : Str) (p : Char)
    (h : stringsHasPrefix s [p] = true) : ∃ cs, s = p :: cs := by
  cases s with
  | nil => simp [stringsHasPrefix] at h
  | cons c cs =>
    unfold stringsHasPrefix at h
    by_cases hc : c = p
    · exact ⟨cs, by rw [hc]⟩
    · rw [if_neg hc] at h
      exact absurd h (by simp)

/-- Looking up the key just inserted finds the inserted value. -/
theorem mapLookup_mapInsert_self {α : Type} (l : List (Str × α)) (k : Str)
    (v : α) : mapLookup (mapInsert l k v) k = some v := by
  induction l with
  | nil => simp [mapInsert, mapLookup]
  | cons kv rest ih =>
    obtain ⟨k', v'⟩ := kv
    unfold mapInsert
    by_cases hk : k' = k
    · rw [if_pos hk]
      simp [mapLookup]
    · rw [if_neg hk]
      unfold mapLookup
      rw [if_neg hk]
      exact ih

/-- The suggestion builder only grows. -/
theorem suggestionText_foldl_le (l : List Str) (acc : Str) :
    acc.length ≤ (l.foldl (fun a s => a ++ suggestionEntry s) acc).length := by
  induction l generalizing acc with
  | nil => simp
  | cons x xs ih =>
    calc acc.length ≤ (acc ++ suggestionEntry x).length := by simp
    _ ≤ _ := ih (acc ++ suggestionEntry x)

/-- A non-empty match list yields non-empty suggestion text (each entry
contributes at least the fixed markup characters). -/
theorem suggestionText_pos (x : Str) (xs : List Str) :
    (suggestionText (x :: xs)).length ≠ 0 := by
  have h1 : (suggestionEntry x).length ≤ (suggestionText (x :: xs)).length := by
    have := suggestionText_foldl_le xs ([] ++ suggestionEntry x)
    simpa [suggestionText] using this
  have h2 : 0 < (suggestionEntry x).length := by
    simp [suggestionEntry, lit]
  omega

/-- The permission phase never invokes middleware. -/
theorem mwsIn_permissionPhase (m : Mux) (gm : Str → Str → Option Member)
    (msg : Message) (handler : Command) (ctx : Context) :
    mwsIn (permissionPhase m gm msg handler ctx) = [] := by
  unfold permissionPhase
  split
  · cases gm msg.GuildID msg.Author.ID with
    | none => simp [mwsIn]
    | some member =>
      by_cases h1 : arrayContains handler.perms.UserIDs member.UserID <;>
        by_cases h2 : hasRoleIn member.Roles handler.perms.RoleIDs <;>
          by_cases h3 : arrayContains handler.perms.ChanIDs msg.ChannelID <;>
            simp [h1, h2, h3, mwsIn]
  · simp [mwsIn]

/-- Under the filter conditions and a non-empty first token, `Handle`
reaches the resolution stage on the token minus its first character. -/
theorem handle_reaches_resolution (m : Mux) (selfID : Str)
    (gm : Str → Str → Option Member) (fz : Str → List Str → List Str)
    (msg : Message) (c0 : Char) (rest : Str)
    (hf : passesFilters m selfID msg)
    (htok : (stringsSplitSpace msg.Content).headD [] = c0 :: rest) :
    m.Handle selfID gm fz msg = handleResolved m gm fz msg rest := by
  obtain ⟨h1, h2, h3, h4, h5, h6⟩ := hf
  unfold Mux.Handle
  rw [if_neg h1, if_neg h2, if_neg h3, if_neg h4, if_neg h5,
    if_neg (not_not_intro h6), htok]
  rfl

/-- Resolution sends the static content when the token is a simple
command. -/
theorem resolved_simple (m : Mux) (gm : Str → Str → Option Member)
    (fz : Str → List Str → List Str) (msg : Message) (tail1 : Str)
    (simple : SimpleCommand)
    (hs : mapLookup m.SimpleCommands (stringsToLower tail1) = some simple) :
    handleResolved m gm fz msg tail1 =
      some [Event.send msg.ChannelID simple.Content] := by
  unfold handleResolved
  rw [hs]

/-- Resolution dispatches the rich pipeline when the token misses the simple
table and hits the rich table. -/
theorem resolved_rich (m : Mux) (gm : Str → Str → Option Member)
    (fz : Str → List Str → List Str) (msg : Message) (tail1 : Str)
    (handler : Command)
    (hs : mapLookup m.SimpleCommands (stringsToLower tail1) = none)
    (hr : mapLookup m.Commands (stringsToLower tail1) = some handler) :
    handleResolved m gm fz msg tail1 =
      some (m.Middleware.map Event.mw ++
        Event.permCheck handler.hid ::
          permissionPhase m gm msg handler (richCtx m msg tail1)) := by
  unfold handleResolved
  rw [hs, hr]

/-- Resolution on a full miss sends exactly one reply: the suggestion list
when fuzzy matching is on and produced text, the not-found text otherwise. -/
theorem resolved_miss (m : Mux) (gm : Str → Str → Option Member)
    (fz : Str → List Str → List Str) (msg : Message) (tail1 : Str)
    (hs : mapLookup m.SimpleCommands (stringsToLower tail1) = none)
    (hr : mapLookup m.Commands (stringsToLower tail1) = none) :
    handleResolved m gm fz msg tail1 =
      some [Event.send msg.ChannelID
        (if m.fuzzyMatch = true ∧
            (suggestionText (fz (stringsToLower tail1) m.commandNames)).length ≠ 0
         then didYouMeanText (suggestionText (fz (stringsToLower tail1) m.commandNames))
         else m.errorTexts.CommandNotFound)] := by
  unfold handleResolved
  rw [hs, hr]
  by_cases hfz : m.fuzzyMatch = true
  · by_cases hlen :
        (suggestionText (fz (stringsToLower tail1) m.commandNames)).length = 0
    · simp [hfz, hlen]
    · simp [hfz, hlen]
  · simp [hfz]

/-- Once the resolution stage is reached, no panic can occur. -/
theorem handleResolved_ne_none (m : Mux) (gm : Str → Str → Option Member)
    (fz : Str → List Str → List Str) (msg : Message) (tail1 : Str) :
    handleResolved m gm fz msg tail1 ≠ none := by
  unfold handleResolved
  repeat' split
  all_goals exact Option.some_ne_none _

/-- Sends distribute over trace concatenation. -/
theorem sendsIn_append (a b : List Event) :
    sendsIn (a ++ b) = sendsIn a ++ sendsIn b := by
  simp [sendsIn]

/-- Middleware events contribute no sends. -/
theorem sendsIn_mwMap (l : List Nat) : sendsIn (l.map Event.mw) = [] := by
  simp [sendsIn, List.filterMap_cons]

/-- Spawns distribute over trace concatenation. -/
theorem spawnsIn_append (a b : List Event) :
    spawnsIn (a ++ b) = spawnsIn a ++ spawnsIn b := by
  simp [spawnsIn]

/-- Middleware events contribute no spawns. -/
theorem spawnsIn_mwMap (l : List Nat) : spawnsIn (l.map Event.mw) = [] := by
  simp [spawnsIn, List.filterMap_cons]

/-- Lookups distribute over trace concatenation. -/
theorem lookupsIn_append (a b : List Event) :
    lookupsIn (a ++ b) = lookupsIn a ++ lookupsIn b := by
  simp [lookupsIn]

/-- Middleware events contribute no member lookups. -/
theorem lookupsIn_mwMap (l : List Nat) : lookupsIn (l.map Event.mw) = [] := by
  simp [lookupsIn, List.filterMap_cons]

/-- C2, counterexample: the claim says construction fails for every length
other than 1, but `New` with the empty string — length 0 — succeeds, because
the source only rejects `len(prefix) > 1`. -/
theorem New_empty_cex :
    New [] = Except.ok newEmptyMux ∧ ([] : Str).length ≠ 1 :=
  ⟨rfl, by decide⟩

/-- C2, amended: `New` fails exactly when the command marker is longer than
one character; the empty marker and every one-character marker succeed. -/
theorem New_error_iff (pfx : Str) :
    New pfx = Except.error () ↔ 1 < pfx.length := by
  unfold New
  by_cases h : pfx.length > 1
  · simp [h]
  · simp [h]

/-- Witness for `New_error_iff` at the two-character marker `ab`. -/
theorem New_error_iff_witness : New (lit "ab") = Except.error () :=
  (New_error_iff (lit "ab")).mpr (by decide)

/-- C3, counterexample: the rich command registered under `Ping` is looked up
by the lowercased message token, so the message `!Ping` — whose token equals
the registered name, hence differs from it only by letter case — is not
resolved: the not-found text is sent instead of dispatching the command. -/
theorem case_resolution_cex :
    mapLookup upperPingMux.Commands (lit "Ping") = some upperPingRich ∧
    upperPingMux.Handle (lit "self") gmFail noFuzzy (mkMsg "!Ping") =
      some [Event.send (lit "chan1") (lit "Command not found.")] := by
  decide

/-- C3, amended: resolution lowercases the message token and then looks it up
verbatim, so case-insensitive resolution holds exactly for commands whose
registered name is all-lowercase: if the stripped token and the registered
name agree up to letter case and the name equals its own lowercasing, the
registered command (simple or rich) is found. -/
theorem token_lowercased_resolution (m : Mux) (selfID : Str)
    (gm : Str → Str → Option Member) (fz : Str → List Str → List Str)
    (msg : Message) (c0 : Char) (rest name : Str)
    (hf : passesFilters m selfID msg)
    (htok : (stringsSplitSpace msg.Content).headD [] = c0 :: rest)
    (hcase : stringsToLower rest = stringsToLower name)
    (hlow : stringsToLower name = name) :
    (∀ s : SimpleCommand, mapLookup m.SimpleCommands name = some s →
      m.Handle selfID gm fz msg = some [Event.send msg.ChannelID s.Content]) ∧
    (∀ c : Command, mapLookup m.SimpleCommands name = none →
      mapLookup m.Commands name = some c →
      m.Handle selfID gm fz msg =
        some (m.Middleware.map Event.mw ++ Event.permCheck c.hid ::
          permissionPhase m gm msg c (richCtx m msg rest))) := by
  have hkey : stringsToLower rest = name := hcase.trans hlow
  constructor
  · intro s hsimp
    rw [handle_reaches_resolution m selfID gm fz msg c0 rest hf htok]
    exact resolved_simple m gm fz msg rest s (by rw [hkey]; exact hsimp)
  · intro c hnone hc
    rw [handle_reaches_resolution m selfID gm fz msg c0 rest hf htok]
    exact resolved_rich m gm fz msg rest c (by rw [hkey]; exact hnone)
      (by rw [hkey]; exact hc)

/-- Witness for `token_lowercased_resolution`: the simple command `hello` is
found from the differently cased message `!HELLO`. -/
theorem token_lowercased_resolution_witness :
    wHelloMux.Handle (lit "self") gmFail noFuzzy (mkMsg "!HELLO") =
      some [Event.send (mkMsg "!HELLO").ChannelID wHelloSimple.Content] := by
  have h := token_lowercased_resolution wHelloMux (lit "self") gmFail noFuzzy
    (mkMsg "!HELLO") '!' (lit "HELLO") (lit "hello")
    (by decide) (by decide) (by decide) (by decide)
  exact h.1 wHelloSimple (by decide)

/-- C4, counterexample: the space character is an accepted one-character
command marker, but then a message starting with a space passes the prefix
check while its first space-split token is empty, so `args[0][1:]` is out of
bounds and `Handle` panics (`none`). -/
theorem space_slice_panic_cex :
    spaceMux.Handle (lit "self") gmFail noFuzzy (mkMsg " x") = none ∧
    (spaceMux.Prefix).length = 1 := by
  decide

/-- C4, amended: provided the command marker has length exactly 1 and is not
the space character, `Handle` never indexes out of bounds: every message that
passes the prefix check has a non-empty first token starting with the marker,
so dropping its first character is in bounds and no panic occurs. -/
theorem no_panic_of_nonspace (m : Mux) (selfID : Str)
    (gm : Str → Str → Option Member) (fz : Str → List Str → List Str)
    (msg : Message)
    (hlen : m.Prefix.length = 1) (hsp : m.Prefix ≠ [' ']) :
    m.Handle selfID gm fz msg ≠ none := by
  obtain ⟨p, hp⟩ := List.length_eq_one.mp hlen
  have hpne : p ≠ ' ' := by
    intro hps
    exact hsp (by rw [hp, hps])
  unfold Mux.Handle
  by_cases h1 : msg.Author.ID = selfID
  · rw [if_pos h1]; exact Option.some_ne_none _
  rw [if_neg h1]
  by_cases h2 : m.options.IgnoreEmpty = true ∧ msg.Content.length = 0
  · rw [if_pos h2]; exact Option.some_ne_none _
  rw [if_neg h2]
  by_cases h3 : m.options.IgnoreNonDefault = true ∧ msg.MsgType ≠ MessageTypeDefault
  · rw [if_pos h3]; exact Option.some_ne_none _
  rw [if_neg h3]
  by_cases h4 : m.options.IgnoreBots = true ∧ msg.Author.Bot = true
  · rw [if_pos h4]; exact Option.some_ne_none _
  rw [if_neg h4]
  by_cases h5 : m.options.IgnoreDMs = true ∧ msg.GuildID = []
  · rw [if_pos h5]; exact Option.some_ne_none _
  rw [if_neg h5]
  by_cases h6 : stringsHasPrefix msg.Content m.Prefix = true
  · rw [if_neg (not_not_intro h6)]
    rw [hp] at h6
    obtain ⟨cs, hcs⟩ := hasPrefix_single msg.Content p h6
    rw [hcs, splitSpace_headD_cons p cs hpne]
    exact handleResolved_ne_none m gm fz msg ((stringsSplitSpace cs).headD [])
  · rw [if_pos h6]; exact Option.some_ne_none _

/-- Witness for `no_panic_of_nonspace` with the exclamation-mark marker. -/
theorem no_panic_of_nonspace_witness :
    baseMux.Handle (lit "self") gmFail noFuzzy (mkMsg "!ping") ≠ none :=
  no_panic_of_nonspace baseMux (lit "self") gmFail noFuzzy (mkMsg "!ping")
    (by decide) (by decide)

/-- C8, confirmed: a self-authored message, a message failing any enabled
Options filter, or a message lacking the command marker is dropped at the
corresponding check: the trace is empty (no sends, no middleware, no
lookups, no handler spawn).  `Handle` never writes any field of the mux, so
the multiplexer's state is unchanged by construction of the embedding. -/
theorem filtered_no_effect (m : Mux) (selfID : Str)
    (gm : Str → Str → Option Member) (fz : Str → List Str → List Str)
    (msg : Message)
    (h : msg.Author.ID = selfID ∨
         (m.options.IgnoreEmpty ∧ msg.Content.length = 0) ∨
         (m.options.IgnoreNonDefault ∧ msg.MsgType ≠ MessageTypeDefault) ∨
         (m.options.IgnoreBots ∧ msg.Author.Bot) ∨
         (m.options.IgnoreDMs ∧ msg.GuildID = []) ∨
         stringsHasPrefix msg.Content m.Prefix = false) :
    m.Handle selfID gm fz msg = some [] := by
  unfold Mux.Handle
  by_cases h1 : msg.Author.ID = selfID
  · rw [if_pos h1]
  rw [if_neg h1]
  by_cases h2 : m.options.IgnoreEmpty = true ∧ msg.Content.length = 0
  · rw [if_pos h2]
  rw [if_neg h2]
  by_cases h3 : m.options.IgnoreNonDefault = true ∧ msg.MsgType ≠ MessageTypeDefault
  · rw [if_pos h3]
  rw [if_neg h3]
  by_cases h4 : m.options.IgnoreBots = true ∧ msg.Author.Bot = true
  · rw [if_pos h4]
  rw [if_neg h4]
  by_cases h5 : m.options.IgnoreDMs = true ∧ msg.GuildID = []
  · rw [if_pos h5]
  rw [if_neg h5]
  by_cases h6 : stringsHasPrefix msg.Content m.Prefix = true
  · exfalso
    rcases h with hc | hc | hc | hc | hc | hc
    · exact h1 hc
    · exact h2 hc
    · exact h3 hc
    · exact h4 hc
    · exact h5 hc
    · rw [h6] at hc
      exact Bool.noConfusion hc
  · rw [if_pos h6]

/-- Witness for `filtered_no_effect`: a bot-authored message is dropped. -/
theorem filtered_no_effect_witness :
    baseMux.Handle (lit "self") gmFail noFuzzy
      { Content := lit "!ping", Author := { ID := lit "bot9", Bot := true },
        MsgType := 0, GuildID := lit "guild1", ChannelID := lit "chan1" } =
      some [] :=
  filtered_no_effect baseMux (lit "self") gmFail noFuzzy
    { Content := lit "!ping", Author := { ID := lit "bot9", Bot := true },
      MsgType := 0, GuildID := lit "guild1", ChannelID := lit "chan1" }
    (by decide)

/-- C1, counterexample: the claim's algorithm (stated by `specAllow`) denies
an actor that matches no tier of a non-empty permission set, but for the
command `secret` with `UserIDs = [U]`, `RoleIDs = []`, `ChanIDs = []` the
code skips the whole permission check — the gate is `len(RoleIDs) != 0` —
and dispatches the handler for the unlisted actor `user1`, sending no
denial. -/
theorem permission_spec_mismatch_cex :
    cexUserOnlyMux.Handle (lit "self") gmFail noFuzzy (mkMsg "!secret") =
      some [Event.permCheck 7,
        Event.spawn 7
          { Prefix := lit "!", Command := lit "secret", Arguments := [],
            Message := mkMsg "!secret" }] ∧
    specAllow cexUserOnlyRich.perms (mkMsg "!secret").Author.ID []
      (mkMsg "!secret").ChannelID = false := by
  decide

/-- C1, amended: the permission decision is gated on `RoleIDs` alone.  If
`RoleIDs` is empty the handler is dispatched unconditionally (`UserIDs` and
`ChanIDs` are ignored); if `RoleIDs` is non-empty and the member lookup
succeeds, the dispatch happens exactly when the member's user ID is in
`UserIDs`, or one of the member's roles is in `RoleIDs`, or the channel is
in `ChanIDs` (tried in that order); otherwise the no-permission text is
sent and no handler runs. -/
theorem permission_check_roleGated (m : Mux) (selfID : Str)
    (gm : Str → Str → Option Member) (fz : Str → List Str → List Str)
    (msg : Message) (c0 : Char) (rest : Str) (handler : Command)
    (member : Member)
    (hf : passesFilters m selfID msg)
    (htok : (stringsSplitSpace msg.Content).headD [] = c0 :: rest)
    (hs : mapLookup m.SimpleCommands (stringsToLower rest) = none)
    (hr : mapLookup m.Commands (stringsToLower rest) = some handler)
    (hgm : gm msg.GuildID msg.Author.ID = some member) :
    m.Handle selfID gm fz msg =
      some (m.Middleware.map Event.mw ++ Event.permCheck handler.hid ::
        permissionPhase m gm msg handler (richCtx m msg rest)) ∧
    (spawnsIn (permissionPhase m gm msg handler (richCtx m msg rest)) ≠ [] ↔
      (handler.perms.RoleIDs = [] ∨
        arrayContains handler.perms.UserIDs member.UserID = true ∨
        hasRoleIn member.Roles handler.perms.RoleIDs = true ∨
        arrayContains handler.perms.ChanIDs msg.ChannelID = true)) ∧
    (spawnsIn (permissionPhase m gm msg handler (richCtx m msg rest)) ≠ [] →
      spawnsIn (permissionPhase m gm msg handler (richCtx m msg rest)) =
        [(handler.hid, richCtx m msg rest)] ∧
      sendsIn (permissionPhase m gm msg handler (richCtx m msg rest)) = []) ∧
    (spawnsIn (permissionPhase m gm msg handler (richCtx m msg rest)) = [] →
      permissionPhase m gm msg handler (richCtx m msg rest) =
        [Event.roleLookup msg.GuildID msg.Author.ID,
          Event.send msg.ChannelID m.errorTexts.NoPermissions]) := by
  refine ⟨?_, ?_, ?_, ?_⟩
  · rw [handle_reaches_resolution m selfID gm fz msg c0 rest hf htok]
    exact resolved_rich m gm fz msg rest handler hs hr
  all_goals
    unfold permissionPhase
    rw [hgm]
    by_cases h0 : handler.perms.RoleIDs = [] <;>
      by_cases hu : arrayContains handler.perms.UserIDs member.UserID = true <;>
        by_cases hro : hasRoleIn member.Roles handler.perms.RoleIDs = true <;>
          by_cases hch : arrayContains handler.perms.ChanIDs msg.ChannelID = true <;>
            simp [h0, hu, hro, hch, spawnsIn, sendsIn, List.length_eq_zero]

/-- Witness for `permission_check_roleGated`: the role-guarded command `mod`
dispatched by a member holding the whitelisted role. -/
theorem permission_check_roleGated_witness :
    wRoleMux.Handle (lit "self") wRoleGm noFuzzy (mkMsg "!mod") =
      some (wRoleMux.Middleware.map Event.mw ++ Event.permCheck wRoleRich.hid ::
        permissionPhase wRoleMux wRoleGm (mkMsg "!mod") wRoleRich
          (richCtx wRoleMux (mkMsg "!mod") (lit "mod"))) := by
  have h := permission_check_roleGated wRoleMux (lit "self") wRoleGm noFuzzy
    (mkMsg "!mod") '!' (lit "mod") wRoleRich
    { UserID := lit "user1", Roles := [lit "R"] }
    (by decide) (by decide) (by decide) (by decide) rfl
  exact h.1

/-- C5, confirmed: the guild-member lookup happens exactly when the resolved
rich command's `RoleIDs` is non-empty, and when that lookup fails the trace
carries exactly one send — the generic platform-error text — and no handler
spawn: the dispatch is abandoned. -/
theorem roleLookup_iff_roleIDs (m : Mux) (selfID : Str)
    (gm : Str → Str → Option Member) (fz : Str → List Str → List Str)
    (msg : Message) (c0 : Char) (rest : Str) (handler : Command)
    (hf : passesFilters m selfID msg)
    (htok : (stringsSplitSpace msg.Content).headD [] = c0 :: rest)
    (hs : mapLookup m.SimpleCommands (stringsToLower rest) = none)
    (hr : mapLookup m.Commands (stringsToLower rest) = some handler) :
    m.Handle selfID gm fz msg =
      some (m.Middleware.map Event.mw ++ Event.permCheck handler.hid ::
        permissionPhase m gm msg handler (richCtx m msg rest)) ∧
    (lookupsIn (m.Middleware.map Event.mw ++ Event.permCheck handler.hid ::
        permissionPhase m gm msg handler (richCtx m msg rest)) =
      if handler.perms.RoleIDs = [] then []
      else [(msg.GuildID, msg.Author.ID)]) ∧
    (handler.perms.RoleIDs ≠ [] → gm msg.GuildID msg.Author.ID = none →
      sendsIn (m.Middleware.map Event.mw ++ Event.permCheck handler.hid ::
          permissionPhase m gm msg handler (richCtx m msg rest)) =
        [(msg.ChannelID, weirdIssueText)] ∧
      spawnsIn (m.Middleware.map Event.mw ++ Event.permCheck handler.hid ::
          permissionPhase m gm msg handler (richCtx m msg rest)) = []) := by
  refine ⟨?_, ?_, ?_⟩
  · rw [handle_reaches_resolution m selfID gm fz msg c0 rest hf htok]
    exact resolved_rich m gm fz msg rest handler hs hr
  · unfold permissionPhase
    by_cases h0 : handler.perms.RoleIDs = []
    · simp [h0, lookupsIn_append, lookupsIn_mwMap, lookupsIn,
        List.length_eq_zero]
    · cases hgm : gm msg.GuildID msg.Author.ID with
      | none =>
        simp [h0, lookupsIn_append, lookupsIn_mwMap, lookupsIn,
          List.length_eq_zero]
      | some member =>
        by_cases hu : arrayContains handler.perms.UserIDs member.UserID = true <;>
          by_cases hro : hasRoleIn member.Roles handler.perms.RoleIDs = true <;>
            by_cases hch : arrayContains handler.perms.ChanIDs msg.ChannelID = true <;>
              simp [h0, hu, hro, hch, lookupsIn_append, lookupsIn_mwMap,
                lookupsIn, List.length_eq_zero]
  · intro hne hgm
    unfold permissionPhase
    rw [hgm]
    constructor
    · simp [hne, sendsIn_append, sendsIn_mwMap, sendsIn, List.length_eq_zero]
    · simp [hne, spawnsIn_append, spawnsIn_mwMap, spawnsIn,
        List.length_eq_zero]

/-- Witness for `roleLookup_iff_roleIDs`: the role-guarded command `mod`
with a failing member lookup yields exactly the platform-error send and no
spawn. -/
theorem roleLookup_iff_roleIDs_witness :
    sendsIn (wRoleMux.Middleware.map Event.mw ++ Event.permCheck wRoleRich.hid ::
        permissionPhase wRoleMux gmFail (mkMsg "!mod") wRoleRich
          (richCtx wRoleMux (mkMsg "!mod") (lit "mod"))) =
      [((mkMsg "!mod").ChannelID, weirdIssueText)] ∧
    spawnsIn (wRoleMux.Middleware.map Event.mw ++ Event.permCheck wRoleRich.hid ::
        permissionPhase wRoleMux gmFail (mkMsg "!mod") wRoleRich
          (richCtx wRoleMux (mkMsg "!mod") (lit "mod"))) = [] := by
  have h := roleLookup_iff_roleIDs wRoleMux (lit "self") gmFail noFuzzy
    (mkMsg "!mod") '!' (lit "mod") wRoleRich
    (by decide) (by decide) (by decide) (by decide)
  exact h.2.2 (by decide) rfl

/-- C6, confirmed: registering the same token as a rich command and as a
simple command, in either order, leaves both tables populated, and dispatch
sends the simple command's static content only: the trace is exactly one
send, with no context build, no middleware, no permission read, and no rich
handler spawn — the simple table is consulted first. -/
theorem simple_beats_rich (m : Mux) (c : Command) (s : SimpleCommand)
    (selfID : Str) (gm : Str → Str → Option Member)
    (fz : Str → List Str → List Str) (msg : Message) (c0 : Char) (rest : Str)
    (hname : c.settings.Command = s.Command)
    (hne : s.Command ≠ [])
    (hrest : stringsToLower rest = s.Command)
    (hf : passesFilters m selfID msg)
    (htok : (stringsSplitSpace msg.Content).headD [] = c0 :: rest) :
    ((m.Register [c]).RegisterSimple [s]).Handle selfID gm fz msg =
      some [Event.send msg.ChannelID s.Content] ∧
    ((m.RegisterSimple [s]).Register [c]).Handle selfID gm fz msg =
      some [Event.send msg.ChannelID s.Content] := by
  have hlen : (s.Command).length ≠ 0 := by
    simpa [List.length_eq_zero] using hne
  have hlenC : (c.settings.Command).length ≠ 0 := by rw [hname]; exact hlen
  have hreg : ∀ m' : Mux, m'.Register [c] =
      { m' with Commands := mapInsert m'.Commands c.settings.Command c } := by
    intro m'
    simp only [Mux.Register, List.foldl]
    rw [if_pos hlenC]
  have hregS : ∀ m' : Mux, m'.RegisterSimple [s] =
      { m' with SimpleCommands := mapInsert m'.SimpleCommands s.Command s } := by
    intro m'
    simp only [Mux.RegisterSimple, List.foldl]
    rw [if_pos hlen]
  have key : ∀ m' : Mux, m'.options = m.options → m'.Prefix = m.Prefix →
      mapLookup m'.SimpleCommands (stringsToLower rest) = some s →
      m'.Handle selfID gm fz msg = some [Event.send msg.ChannelID s.Content] := by
    intro m' hopt hpfx hlook
    have hf' : passesFilters m' selfID msg := by
      unfold passesFilters at hf ⊢
      rw [hopt, hpfx]
      exact hf
    rw [handle_reaches_resolution m' selfID gm fz msg c0 rest hf' htok]
    exact resolved_simple m' gm fz msg rest s hlook
  constructor
  · rw [hreg m, hregS _]
    apply key
    · rfl
    · rfl
    · rw [hrest]
      exact mapLookup_mapInsert_self _ _ _
  · rw [hregS m, hreg _]
    apply key
    · rfl
    · rfl
    · rw [hrest]
      exact mapLookup_mapInsert_self _ _ _

/-- Witness for `simple_beats_rich` at the contested token `dup`. -/
theorem simple_beats_rich_witness :
    ((baseMux.Register [dupRich]).RegisterSimple [dupSimple]).Handle
        (lit "self") gmFail noFuzzy (mkMsg "!dup") =
      some [Event.send (mkMsg "!dup").ChannelID dupSimple.Content] ∧
    ((baseMux.RegisterSimple [dupSimple]).Register [dupRich]).Handle
        (lit "self") gmFail noFuzzy (mkMsg "!dup") =
      some [Event.send (mkMsg "!dup").ChannelID dupSimple.Content] :=
  simple_beats_rich baseMux dupRich dupSimple (lit "self") gmFail noFuzzy
    (mkMsg "!dup") '!' (lit "dup")
    (by decide) (by decide) (by decide) (by decide) (by decide)

/-- C7, confirmed: on a full resolution miss the dispatch sends exactly one
reply and spawns no handler: the not-found text when fuzzy matching is off,
the not-found text when it is on but the suggester returns nothing, and the
formatted suggestion list when the suggester returns at least one name. -/
theorem miss_reply_cases (m : Mux) (selfID : Str)
    (gm : Str → Str → Option Member) (fz : Str → List Str → List Str)
    (msg : Message) (c0 : Char) (rest : Str)
    (hf : passesFilters m selfID msg)
    (htok : (stringsSplitSpace msg.Content).headD [] = c0 :: rest)
    (hs : mapLookup m.SimpleCommands (stringsToLower rest) = none)
    (hr : mapLookup m.Commands (stringsToLower rest) = none) :
    (m.fuzzyMatch = false →
      m.Handle selfID gm fz msg =
        some [Event.send msg.ChannelID m.errorTexts.CommandNotFound]) ∧
    (m.fuzzyMatch = true → fz (stringsToLower rest) m.commandNames = [] →
      m.Handle selfID gm fz msg =
        some [Event.send msg.ChannelID m.errorTexts.CommandNotFound]) ∧
    (∀ x xs, m.fuzzyMatch = true →
      fz (stringsToLower rest) m.commandNames = x :: xs →
      m.Handle selfID gm fz msg =
        some [Event.send msg.ChannelID
          (didYouMeanText (suggestionText (x :: xs)))]) := by
  have hbase := handle_reaches_resolution m selfID gm fz msg c0 rest hf htok
  have hmiss := resolved_miss m gm fz msg rest hs hr
  refine ⟨?_, ?_, ?_⟩
  · intro hfz
    rw [hbase, hmiss, if_neg (by simp [hfz])]
  · intro hfz hempty
    rw [hbase, hmiss, hempty]
    rw [if_neg (by simp [suggestionText])]
  · intro x xs hfz hcons
    rw [hbase, hmiss, hcons, if_pos ⟨hfz, suggestionText_pos x xs⟩]

/-- Witness for `miss_reply_cases`: fuzzy matching on, suggester returns
`ping`, the formatted list is sent. -/
theorem miss_reply_cases_witness :
    fuzzyMux.Handle (lit "self") gmFail pingFuzzy (mkMsg "!pnig") =
      some [Event.send (mkMsg "!pnig").ChannelID
        (didYouMeanText (suggestionText (lit "ping" :: [])))] := by
  have h := miss_reply_cases fuzzyMux (lit "self") gmFail pingFuzzy
    (mkMsg "!pnig") '!' (lit "pnig")
    (by decide) (by decide) (by decide) (by decide)
  exact h.2.2 (lit "ping") [] rfl rfl

/-- C9, confirmed: on a resolved rich dispatch the trace is exactly the
registered middleware identifiers, in registration order, followed by the
`Permissions()` read and a middleware-free tail — the chain runs once,
strictly before the permission check.  A simple-command dispatch and a
resolution miss invoke no middleware at all. -/
theorem middleware_once_before_perms (m : Mux) (selfID : Str)
    (gm : Str → Str → Option Member) (fz : Str → List Str → List Str)
    (msg : Message) (c0 : Char) (rest : Str)
    (hf : passesFilters m selfID msg)
    (htok : (stringsSplitSpace msg.Content).headD [] = c0 :: rest) :
    (∀ handler : Command,
      mapLookup m.SimpleCommands (stringsToLower rest) = none →
      mapLookup m.Commands (stringsToLower rest) = some handler →
      m.Handle selfID gm fz msg =
        some (m.Middleware.map Event.mw ++ Event.permCheck handler.hid ::
          permissionPhase m gm msg handler (richCtx m msg rest)) ∧
      mwsIn (permissionPhase m gm msg handler (richCtx m msg rest)) = []) ∧
    (∀ simple : SimpleCommand,
      mapLookup m.SimpleCommands (stringsToLower rest) = some simple →
      m.Handle selfID gm fz msg =
        some [Event.send msg.ChannelID simple.Content] ∧
      mwsIn [Event.send msg.ChannelID simple.Content] = []) ∧
    (mapLookup m.SimpleCommands (stringsToLower rest) = none →
      mapLookup m.Commands (stringsToLower rest) = none →
      mwsIn ((m.Handle selfID gm fz msg).getD []) = []) := by
  have hbase := handle_reaches_resolution m selfID gm fz msg c0 rest hf htok
  refine ⟨?_, ?_, ?_⟩
  · intro handler hs hr
    constructor
    · rw [hbase]
      exact resolved_rich m gm fz msg rest handler hs hr
    · exact mwsIn_permissionPhase m gm msg handler (richCtx m msg rest)
  · intro simple hsome
    constructor
    · rw [hbase]
      exact resolved_simple m gm fz msg rest simple hsome
    · simp [mwsIn]
  · intro hs hr
    rw [hbase, resolved_miss m gm fz msg rest hs hr]
    simp [mwsIn]

/-- Witness for `middleware_once_before_perms`: one middleware (id 5) runs
once before the permission read of the rich command `mod`. -/
theorem middleware_once_before_perms_witness :
    mwMux.Handle (lit "self") wRoleGm noFuzzy (mkMsg "!mod") =
      some (mwMux.Middleware.map Event.mw ++ Event.permCheck wRoleRich.hid ::
        permissionPhase mwMux wRoleGm (mkMsg "!mod") wRoleRich
          (richCtx mwMux (mkMsg "!mod") (lit "mod"))) ∧
    mwsIn (permissionPhase mwMux wRoleGm (mkMsg "!mod") wRoleRich
      (richCtx mwMux (mkMsg "!mod") (lit "mod"))) = [] := by
  have h := middleware_once_before_perms mwMux (lit "self") wRoleGm noFuzzy
    (mkMsg "!mod") '!' (lit "mod") (by decide) (by decide)
  exact h.1 wRoleRich (by decide) (by decide)

end Disgomux
